import Mathlib

/-!
Verification development for the GetOrganized term/taxonomy pull repository.

The Lean definitions below are shallow embeddings of the Python source:

* `src/processes/queue_handler.py` — `create_sort_key`, `concurrent_add` and
  its inner coroutine `add_one` (bounded-concurrency dispatch with retries).
* `src/helpers/taxonomy.py` — `get_taxononmy` with its paginated fetch loop
  and `insert_into_database`.
* `src/helpers/term_data_handler.py` — `_get_child_terms` (recursive term
  tree fetch) and `_insert_term_data_to_sql` (tree-flatten insert).

External collaborators (the HTTP server, the work queue, the stored-procedure
executor) are modelled as explicit function parameters; observable side
effects (requests issued, permits taken, sleeps, log lines, SQL calls) are
reified as event lists.
-/

namespace GoAts

/-! ## JSON values and `json.dumps(item, sort_keys=True, ensure_ascii=False)`

`create_sort_key` serializes the whole work item with Python's `json.dumps`
using `sort_keys=True`.  We embed JSON values with objects as
insertion-ordered association lists (the state of a Python `dict`), and the
serializer sorts each object's entries by key, exactly as `sort_keys=True`
orders the keys before emitting them. -/

/-- JSON values as held by a Python dict/list structure before serialization.
Objects keep their key-insertion order. -/
inductive JVal where
  | str (s : String)
  | num (n : Int)
  | bool (b : Bool)
  | null
  | arr (xs : List JVal)
  | obj (kvs : List (String × JVal))

/-- Lowercase hex digit, as used by `json.dumps` for `\u00XX` escapes. -/
def hexDigit (n : Nat) : Char :=
  if n < 10 then Char.ofNat (48 + n) else Char.ofNat (87 + n)

/-- Escaping of one character inside a JSON string, following `json.dumps`
with `ensure_ascii=False` (only quotes, backslashes and control characters
are escaped; everything else is emitted as-is). -/
def escChar (c : Char) : String :=
  if c = '"' then "\\\""
  else if c = '\\' then "\\\\"
  else if c = '\n' then "\\n"
  else if c = '\t' then "\\t"
  else if c = '\r' then "\\r"
  else if c = Char.ofNat 8 then "\\b"
  else if c = Char.ofNat 12 then "\\f"
  else if c.toNat < 32 then
    "\\u00" ++ String.mk [hexDigit (c.toNat / 16), hexDigit (c.toNat % 16)]
  else String.singleton c

/-- A JSON string literal: quotes around the escaped characters. -/
def jstr (s : String) : String :=
  "\"" ++ String.join (s.data.map escChar) ++ "\""

/-- Order on already-rendered object entries `(key, rendered entry)`:
compare by key, which is how `sort_keys=True` orders the output. -/
def entryLe (a b : String × String) : Prop := a.1 ≤ b.1

instance : DecidableRel entryLe := fun a b => inferInstanceAs (Decidable (a.1 ≤ b.1))

instance : IsTotal (String × String) entryLe := ⟨fun a b => le_total a.1 b.1⟩

instance : IsTrans (String × String) entryLe := ⟨fun _ _ _ h1 h2 => le_trans h1 h2⟩

mutual

/-- `json.dumps(v, sort_keys=True, ensure_ascii=False)` with the default
separators `", "` and `": "`.  For objects, each entry is rendered and the
entries are emitted in ascending key order (rendering an entry and then
sorting by key emits the same bytes as sorting the keys first, since the
comparator only looks at the key). -/
def jdump (v : JVal) : String :=
  match v with
  | .str s => jstr s
  | .num n => toString n
  | .bool b => if b then "true" else "false"
  | .null => "null"
  | .arr xs => "[" ++ String.intercalate ", " (jdumpList xs) ++ "]"
  | .obj kvs =>
      "\x7b" ++
        String.intercalate ", "
          ((List.insertionSort entryLe (jdumpKvs kvs)).map Prod.snd) ++
      "\x7d"
termination_by sizeOf v

/-- Serialization of the elements of a JSON array, in order. -/
def jdumpList (xs : List JVal) : List String :=
  match xs with
  | [] => []
  | x :: rest => jdump x :: jdumpList rest
termination_by sizeOf xs

/-- Rendered object entries, keyed: `(k, "\"k\": <value>")`, in insertion
order. -/
def jdumpKvs (kvs : List (String × JVal)) : List (String × String) :=
  match kvs with
  | [] => []
  | (k, v) :: rest => (k, jstr k ++ ": " ++ jdump v) :: jdumpKvs rest
termination_by sizeOf kvs

end

/-- First value bound to key `k` in a Python-dict association list. -/
def lookupJ (k : String) : List (String × JVal) → Option JVal
  | [] => none
  | (k2, v) :: rest => if k = k2 then some v else lookupJ k rest

mutual

/-- Structural-data equality of two JSON values: equal scalars, elementwise
equal arrays, and objects that denote the same key→value mapping (duplicate
keys excluded), regardless of key-insertion order. -/
def sameData (p q : JVal) : Bool :=
  match p, q with
  | .str s, .str t => decide (s = t)
  | .num a, .num b => decide (a = b)
  | .bool a, .bool b => decide (a = b)
  | .null, .null => true
  | .arr xs, .arr ys => sameList xs ys
  | .obj k1, .obj k2 =>
      decide ((k1.map Prod.fst).Nodup) && decide ((k2.map Prod.fst).Nodup) &&
      decide (k1.length = k2.length) && subObj k1 k2
  | _, _ => false
termination_by sizeOf p

/-- Elementwise `sameData` on lists of JSON values. -/
def sameList (xs ys : List JVal) : Bool :=
  match xs, ys with
  | [], [] => true
  | x :: xs2, y :: ys2 => sameData x y && sameList xs2 ys2
  | _, _ => false
termination_by sizeOf xs

/-- Every binding of the first association list is present (with
`sameData`-equal value) in the second. -/
def subObj (l1 l2 : List (String × JVal)) : Bool :=
  match l1 with
  | [] => true
  | (k, v) :: rest =>
      (match lookupJ k l2 with
       | some w => sameData v w
       | none => false) && subObj rest l2
termination_by sizeOf l1

end

/-- First value bound to key `k` in a rendered-entry list. -/
def lookupEntry (k : String) : List (String × String) → Option String
  | [] => none
  | (k2, v) :: rest => if k = k2 then some v else lookupEntry k rest

theorem jdumpKvs_map_fst (l : List (String × JVal)) :
    (jdumpKvs l).map Prod.fst = l.map Prod.fst := by
  induction l with
  | nil => simp [jdumpKvs]
  | cons kv rest ih => cases kv; simp [jdumpKvs, ih]

theorem jdumpKvs_length (l : List (String × JVal)) :
    (jdumpKvs l).length = l.length := by
  induction l with
  | nil => simp [jdumpKvs]
  | cons kv rest ih => cases kv; simp [jdumpKvs, ih]

theorem lookupJ_jdumpKvs {k : String} {l : List (String × JVal)} {w : JVal}
    (h : lookupJ k l = some w) :
    lookupEntry k (jdumpKvs l) = some (jstr k ++ ": " ++ jdump w) := by
  induction l with
  | nil => simp [lookupJ] at h
  | cons kv rest ih =>
      obtain ⟨k2, v⟩ := kv
      by_cases hk : k = k2
      · subst hk
        simp [lookupJ] at h
        subst h
        simp [jdumpKvs, lookupEntry]
      · simp [lookupJ, hk] at h
        simp [jdumpKvs, lookupEntry, hk, ih h]

theorem mem_jdumpKvs {l : List (String × JVal)} {e : String × String}
    (h : e ∈ jdumpKvs l) :
    ∃ k v, (k, v) ∈ l ∧ e = (k, jstr k ++ ": " ++ jdump v) := by
  induction l with
  | nil => simp [jdumpKvs] at h
  | cons kv rest ih =>
      obtain ⟨k2, v2⟩ := kv
      simp only [jdumpKvs, List.mem_cons] at h
      rcases h with h | h
      · exact ⟨k2, v2, by simp, h⟩
      · obtain ⟨k, v, hm, he⟩ := ih h
        exact ⟨k, v, by simp [hm], he⟩

theorem lookupEntry_mem {k : String} {v : String} {l : List (String × String)}
    (h : lookupEntry k l = some v) : (k, v) ∈ l := by
  induction l with
  | nil => simp [lookupEntry] at h
  | cons e rest ih =>
      obtain ⟨k2, v2⟩ := e
      by_cases hk : k = k2
      · subst hk
        simp [lookupEntry] at h
        simp [h]
      · simp [lookupEntry, hk] at h
        exact List.mem_cons_of_mem _ (ih h)

/-- Remove the first occurrence of a pair from an entry list (avoiding the
`BEq` instance diamonds of `List.erase`). -/
def eraseFirst (p : String × String) : List (String × String) → List (String × String)
  | [] => []
  | x :: rest => if x = p then rest else x :: eraseFirst p rest

theorem perm_cons_eraseFirst {p : String × String} :
    ∀ {l : List (String × String)}, p ∈ l → l.Perm (p :: eraseFirst p l) := by
  intro l
  induction l with
  | nil => intro h; simp at h
  | cons x rest ih =>
      intro h
      by_cases hx : x = p
      · subst hx
        simp [eraseFirst]
      · have hp : p ∈ rest := by
          rcases List.mem_cons.mp h with h' | h'
          · exact absurd h'.symm hx
          · exact h'
        have h1 : (x :: rest).Perm (x :: p :: eraseFirst p rest) := (ih hp).cons x
        have h2 := h1.trans (List.Perm.swap p x (eraseFirst p rest))
        simpa [eraseFirst, hx] using h2

theorem length_eraseFirst {p : String × String} :
    ∀ {l : List (String × String)}, p ∈ l →
      (eraseFirst p l).length + 1 = l.length := by
  intro l
  induction l with
  | nil => intro h; simp at h
  | cons x rest ih =>
      intro h
      by_cases hx : x = p
      · simp [eraseFirst, hx]
      · have hp : p ∈ rest := by
          rcases List.mem_cons.mp h with h' | h'
          · exact absurd h'.symm hx
          · exact h'
        simp [eraseFirst, hx, ih hp]

theorem eraseFirst_sublist (p : String × String) :
    ∀ l : List (String × String), List.Sublist (eraseFirst p l) l := by
  intro l
  induction l with
  | nil => simp [eraseFirst]
  | cons x rest ih =>
      by_cases hx : x = p
      · subst hx
        rw [show eraseFirst x (x :: rest) = rest by simp [eraseFirst]]
        exact (List.Sublist.refl rest).cons x
      · rw [show eraseFirst p (x :: rest) = x :: eraseFirst p rest by
          simp [eraseFirst, hx]]
        exact ih.cons₂ x

theorem map_fst_eraseFirst_nodup {p : String × String}
    {l : List (String × String)} (h : (l.map Prod.fst).Nodup) :
    ((eraseFirst p l).map Prod.fst).Nodup :=
  (((eraseFirst_sublist p l).map Prod.fst).nodup h)

theorem lookupEntry_eraseFirst {k : String} {p : String × String}
    {l : List (String × String)} (hk : k ≠ p.1) :
    lookupEntry k (eraseFirst p l) = lookupEntry k l := by
  induction l with
  | nil => simp [eraseFirst]
  | cons e rest ih =>
      obtain ⟨k2, v2⟩ := e
      by_cases he : (k2, v2) = p
      · rw [show eraseFirst p ((k2, v2) :: rest) = rest by simp [eraseFirst, he]]
        have hk2 : k ≠ k2 := by
          rw [← he] at hk
          simpa using hk
        simp [lookupEntry, hk2]
      · rw [show eraseFirst p ((k2, v2) :: rest) = (k2, v2) :: eraseFirst p rest by
          simp [eraseFirst, he]]
        by_cases hk2 : k = k2
        · simp [lookupEntry, hk2]
        · simp [lookupEntry, hk2, ih]

/-- Two duplicate-free association lists of the same length in which every
binding of the first appears in the second are permutations of each other. -/
theorem assoc_perm :
    ∀ (l1 l2 : List (String × String)),
      (l1.map Prod.fst).Nodup → (l2.map Prod.fst).Nodup →
      l1.length = l2.length →
      (∀ e ∈ l1, lookupEntry e.1 l2 = some e.2) →
      l1.Perm l2 := by
  intro l1
  induction l1 with
  | nil =>
      intro l2 _ _ hlen _
      cases l2 with
      | nil => exact List.Perm.refl _
      | cons b t2 => simp at hlen
  | cons a t1 ih =>
      intro l2 hn1 hn2 hlen hlk
      have ha : a ∈ l2 := by
        have h1 := hlk a (List.mem_cons_self _ _)
        have h2 := lookupEntry_mem h1
        obtain ⟨x, y⟩ := a
        exact h2
      have hperm2 : l2.Perm (a :: eraseFirst a l2) := perm_cons_eraseFirst ha
      have hn2' : ((eraseFirst a l2).map Prod.fst).Nodup :=
        map_fst_eraseFirst_nodup hn2
      have hlen' : t1.length = (eraseFirst a l2).length := by
        have := length_eraseFirst ha
        simp only [List.length_cons] at hlen
        omega
      have hn1head : a.1 ∉ t1.map Prod.fst := by
        simp only [List.map_cons, List.nodup_cons] at hn1
        exact hn1.1
      have hn1' : (t1.map Prod.fst).Nodup := by
        simp only [List.map_cons, List.nodup_cons] at hn1
        exact hn1.2
      have hlk' : ∀ e ∈ t1, lookupEntry e.1 (eraseFirst a l2) = some e.2 := by
        intro e he
        have hkne : e.1 ≠ a.1 := by
          intro hcontra
          exact hn1head (hcontra ▸ List.mem_map_of_mem Prod.fst he)
        rw [lookupEntry_eraseFirst hkne]
        exact hlk e (List.mem_cons_of_mem _ he)
      have := ih (eraseFirst a l2) hn1' hn2' hlen' hlk'
      exact (this.cons a).trans hperm2.symm

/-- Uniqueness of the sorted arrangement of an association list with
duplicate-free keys: two key-sorted permutations of it coincide. -/
theorem sorted_nodup_perm_eq :
    ∀ (l1 l2 : List (String × String)),
      l1.Perm l2 → l1.Sorted entryLe → l2.Sorted entryLe →
      (l1.map Prod.fst).Nodup → l1 = l2 := by
  intro l1
  induction l1 with
  | nil =>
      intro l2 hp _ _ _
      exact (hp.nil_eq).symm ▸ rfl
  | cons a t1 ih =>
      intro l2 hp hs1 hs2 hn1
      cases l2 with
      | nil => exact absurd hp.symm.nil_eq (by simp)
      | cons b t2 =>
          have hab : a = b := by
            by_contra hne
            have hamem : a ∈ b :: t2 := hp.subset (List.mem_cons_self _ _)
            have hbmem : b ∈ a :: t1 := hp.symm.subset (List.mem_cons_self _ _)
            have ha2 : a ∈ t2 := by
              rcases List.mem_cons.mp hamem with h | h
              · exact absurd h hne
              · exact h
            have hb1 : b ∈ t1 := by
              rcases List.mem_cons.mp hbmem with h | h
              · exact absurd h.symm hne
              · exact h
            have hba : b.1 ≤ a.1 := List.rel_of_sorted_cons hs2 a ha2
            have hab' : a.1 ≤ b.1 := List.rel_of_sorted_cons hs1 b hb1
            have hkey : a.1 = b.1 := le_antisymm hab' hba
            simp only [List.map_cons, List.nodup_cons] at hn1
            exact hn1.1 (hkey ▸ List.mem_map_of_mem Prod.fst hb1)
          subst hab
          have ht : t1.Perm t2 := hp.cons_inv
          have := ih t2 ht hs1.of_cons hs2.of_cons
            (by simp only [List.map_cons, List.nodup_cons] at hn1; exact hn1.2)
          rw [this]

theorem subObj_lookup {l1 l2 : List (String × JVal)} (h : subObj l1 l2 = true) :
    ∀ k v, (k, v) ∈ l1 → ∃ w, lookupJ k l2 = some w ∧ sameData v w = true := by
  induction l1 with
  | nil => intro k v hm; simp at hm
  | cons kv rest ih =>
      obtain ⟨k1, v1⟩ := kv
      rw [subObj] at h
      simp only [Bool.and_eq_true] at h
      obtain ⟨h1, h2⟩ := h
      intro k v hm
      rcases List.mem_cons.mp hm with hm | hm
      · rw [Prod.mk.injEq] at hm
        obtain ⟨hk, hv⟩ := hm
        subst hk
        subst hv
        cases hlk : lookupJ k l2 with
        | none => rw [hlk] at h1; simp at h1
        | some w =>
            rw [hlk] at h1
            simp only at h1
            exact ⟨w, rfl, h1⟩
      · exact ih h2 k v hm

/-- Main soundness induction: `sameData`-related values serialize to the same
string under `jdump`, and likewise elementwise for lists.  The bound `n` is a
size measure making the induction well-founded. -/
theorem jdump_aux :
    ∀ n : Nat,
      (∀ p q : JVal, sizeOf p < n → sameData p q = true → jdump p = jdump q) ∧
      (∀ xs ys : List JVal, sizeOf xs < n → sameList xs ys = true →
        jdumpList xs = jdumpList ys) := by
  intro n
  induction n with
  | zero => exact ⟨fun p _ h => absurd h (by omega), fun xs _ h => absurd h (by omega)⟩
  | succ n ih =>
      constructor
      · intro p q hsz hsame
        cases p with
        | str s => cases q <;> simp_all [sameData, jdump]
        | num a => cases q <;> simp_all [sameData, jdump]
        | bool a => cases q <;> simp_all [sameData, jdump]
        | null => cases q <;> simp_all [sameData, jdump]
        | arr xs =>
            cases q with
            | arr ys =>
                rw [sameData] at hsame
                have hxs : sizeOf xs < n := by
                  have : sizeOf xs < sizeOf (JVal.arr xs) := by simp
                  omega
                rw [jdump, jdump, ih.2 xs ys hxs hsame]
            | str s => simp [sameData] at hsame
            | num a => simp [sameData] at hsame
            | bool a => simp [sameData] at hsame
            | null => simp [sameData] at hsame
            | obj kvs => simp [sameData] at hsame
        | obj k1 =>
            cases q with
            | obj k2 =>
                rw [sameData] at hsame
                simp only [Bool.and_eq_true, decide_eq_true_eq] at hsame
                obtain ⟨⟨⟨hn1, hn2⟩, hlen⟩, hsub⟩ := hsame
                have hk1sz : sizeOf k1 < n := by
                  have : sizeOf k1 < sizeOf (JVal.obj k1) := by simp
                  omega
                -- pointwise correspondence of rendered entries
                have hpt : ∀ e ∈ jdumpKvs k1,
                    lookupEntry e.1 (jdumpKvs k2) = some e.2 := by
                  intro e he
                  obtain ⟨k, v, hm, hee⟩ := mem_jdumpKvs he
                  obtain ⟨w, hlk, hsd⟩ := subObj_lookup hsub k v hm
                  have hvsz : sizeOf v < n := by
                    have h1 := List.sizeOf_lt_of_mem hm
                    have h2 : sizeOf (k, v) = 1 + sizeOf k + sizeOf v := by simp
                    omega
                  have hjv : jdump v = jdump w := ih.1 v w hvsz hsd
                  rw [hee]
                  simp only
                  rw [lookupJ_jdumpKvs hlk, ← hjv]
                have hperm : (jdumpKvs k1).Perm (jdumpKvs k2) :=
                  assoc_perm (jdumpKvs k1) (jdumpKvs k2)
                    (by rw [jdumpKvs_map_fst]; exact hn1)
                    (by rw [jdumpKvs_map_fst]; exact hn2)
                    (by rw [jdumpKvs_length, jdumpKvs_length]; exact hlen)
                    hpt
                have hsorteq :
                    List.insertionSort entryLe (jdumpKvs k1) =
                    List.insertionSort entryLe (jdumpKvs k2) := by
                  apply sorted_nodup_perm_eq
                  · exact (List.perm_insertionSort entryLe (jdumpKvs k1)).trans
                      (hperm.trans (List.perm_insertionSort entryLe (jdumpKvs k2)).symm)
                  · exact List.sorted_insertionSort entryLe (jdumpKvs k1)
                  · exact List.sorted_insertionSort entryLe (jdumpKvs k2)
                  · have hpm : ((List.insertionSort entryLe (jdumpKvs k1)).map
                        Prod.fst).Perm ((jdumpKvs k1).map Prod.fst) :=
                      (List.perm_insertionSort entryLe (jdumpKvs k1)).map Prod.fst
                    exact hpm.nodup_iff.mpr (by rw [jdumpKvs_map_fst]; exact hn1)
                rw [jdump, jdump, hsorteq]
            | str s => simp [sameData] at hsame
            | num a => simp [sameData] at hsame
            | bool a => simp [sameData] at hsame
            | null => simp [sameData] at hsame
            | arr xs => simp [sameData] at hsame
      · intro xs ys hsz hsame
        cases xs with
        | nil => cases ys with
          | nil => rfl
          | cons y ys2 => simp [sameList] at hsame
        | cons x xs2 =>
            cases ys with
            | nil => simp [sameList] at hsame
            | cons y ys2 =>
                rw [sameList] at hsame
                simp only [Bool.and_eq_true] at hsame
                have hx : sizeOf x < n := by
                  have : sizeOf x < sizeOf (x :: xs2) := by simp; omega
                  omega
                have hxs2 : sizeOf xs2 < n := by
                  have : sizeOf xs2 < sizeOf (x :: xs2) := by simp
                  omega
                rw [jdumpList, jdumpList, ih.1 x y hx hsame.1,
                  ih.2 xs2 ys2 hxs2 hsame.2]

/-- `sameData`-related JSON values have byte-identical canonical
serializations. -/
theorem sameData_jdump {p q : JVal} (h : sameData p q = true) :
    jdump p = jdump q :=
  (jdump_aux (sizeOf p + 1)).1 p q (Nat.lt_succ_self _) h

/-! ## `queue_handler.py`: `create_sort_key`, `add_one`, `concurrent_add`

`concurrent_add` creates one `asyncio.Semaphore(MAX_CONCURRENCY)` and one
coroutine `add_one(it)` per item.  `add_one` does

    async with sem:
        for attempt in range(1, MAX_RETRIES + 1):
            try:
                await asyncio.to_thread(workqueue.add_item, data, reference)
                logger.info(...); return True
            except Exception as e:
                if attempt >= MAX_RETRIES:
                    logger.error(...); return False
                backoff = RETRY_BASE_DELAY * (2 ** (attempt - 1))
                logger.warning(...)
                await asyncio.sleep(backoff)

We reify the observable actions of one `add_one` run as an event list: the
semaphore acquire/release implied by `async with sem:` (released on exit,
whichever `return` path is taken), the submission attempts, the log lines,
and the backoff sleeps.  The external `workqueue.add_item` collaborator is a
function `outcome : Nat → Bool` giving the success of each attempt number.
`RETRY_BASE_DELAY` is modelled as a rational. -/

/-- Observable events of the dispatcher. -/
inductive QEv where
  | acquire
  | attempt (n : Nat)
  | okEv
  | warn (n : Nat) (d : ℚ)
  | sleep (d : ℚ)
  | errorFail (n : Nat)
  | noItems
  | release
deriving DecidableEq

/-- The `for attempt in range(1, MAX_RETRIES + 1)` loop of `add_one`, run
from attempt number `j` with `fuel` loop iterations remaining
(`fuel = MAX_RETRIES + 1 - j` at the top call).  Returns the emitted events
and the Python return value (`none` models falling off the loop without a
`return`, which returns `None`). -/
def loopF (base : ℚ) (outcome : Nat → Bool) (maxR : Nat) :
    Nat → Nat → List QEv × Option Bool
  | 0, _ => ([], none)
  | fuel + 1, j =>
    if outcome j then ([QEv.attempt j, QEv.okEv], some true)
    else if maxR ≤ j then ([QEv.attempt j, QEv.errorFail j], some false)
    else
      let d := base * 2 ^ (j - 1)
      let r := loopF base outcome maxR fuel (j + 1)
      (QEv.attempt j :: QEv.warn j d :: QEv.sleep d :: r.1, r.2)

/-- One `add_one(it)` run: acquire the semaphore, run the retry loop, and
release the semaphore when the `async with` block is exited by either
`return`. -/
def addOneEvents (maxR : Nat) (base : ℚ) (outcome : Nat → Bool) :
    List QEv × Option Bool :=
  let r := loopF base outcome maxR maxR 1
  (QEv.acquire :: r.1 ++ [QEv.release], r.2)

/-- `create_sort_key(item) = json.dumps(item, sort_keys=True,
ensure_ascii=False)`. -/
def createSortKey (item : JVal) : String := jdump item

/-- Comparison used by `sorted(items, key=create_sort_key)`. -/
def itemLe (a b : JVal) : Prop := createSortKey a ≤ createSortKey b

instance : DecidableRel itemLe := fun a b =>
  inferInstanceAs (Decidable (createSortKey a ≤ createSortKey b))

instance : IsTotal JVal itemLe := ⟨fun a b => le_total (createSortKey a) (createSortKey b)⟩

instance : IsTrans JVal itemLe := ⟨fun _ _ _ h1 h2 => le_trans h1 h2⟩

/-- `sorted(items, key=create_sort_key)`. -/
def sortItemsBy (l : List JVal) : List JVal := List.insertionSort itemLe l

/-- `concurrent_add(workqueue, items)`:

* empty batch: log "No new items to add." and return immediately (no
  summary is computed or logged);
* otherwise sort the items by `create_sort_key`, run one `add_one` per item
  (its submission outcomes given by `outcome i : Nat → Bool` for the `i`-th
  sorted item), and log the summary
  `(successes, failures, total) = (#true results, rest, total)`.

Events of the per-item coroutines are recorded per item in dispatch order;
the summary counts a `True` return as success, anything else (`False` or
`None`) as failure, exactly like `sum(1 for r in results if r)`. -/
def concurrentAdd (maxR : Nat) (base : ℚ) (outcome : Nat → Nat → Bool)
    (items : List JVal) : List QEv × Option (Nat × Nat × Nat) :=
  if items.isEmpty then ([QEv.noItems], none)
  else
    let sorted := sortItemsBy items
    let runs := (List.range sorted.length).map fun i => addOneEvents maxR base (outcome i)
    let evs := (runs.map Prod.fst).flatten
    let succ := (runs.filter fun r => r.2 == some true).length
    (evs, some (succ, runs.length - succ, runs.length))

/-! ## `taxonomy.py`: `fetch_data`, `insert_into_database`, `get_taxononmy`

The fetch loop walks `NextHref` cursors:

    next_url = full_url
    while next_url:
        json_data = fetch_data(session, next_url)
        if "Row" in json_data: all_rows.extend(json_data["Row"])
        if "NextHref" in json_data:
            next_url = base_url + endpoint + json_data["NextHref"]
        else:
            next_url = None
    insert_into_database(credentials['sql_conn_string'], ..., all_rows, case_type)

wrapped in `try/except` catching `RequestException`, `KeyError`, `TypeError`
and `JSONDecodeError`.  Note that `credentials['go_api_username']` and
`credentials['go_api_password']` are read *before* the `try` block (when the
session is created), while `credentials['sql_conn_string']` is read inside
it.  The HTTP collaborator is `serve : String → FetchR`, keyed by URL. -/

/-- One row of the taxonomy hidden list (a response `Row` record); every
field is read with `.get(key, "")` at insert time. -/
structure TaxRow where
  idF : Option String
  title : Option String
  termStore : Option String
  termF : Option String
  termSet : Option String
  path : Option String
deriving DecidableEq

/-- A decoded page: `Row` (if the key is present) and `NextHref` (if the key
is present). -/
structure TaxPage where
  row : Option (List TaxRow)
  nextHref : Option String
deriving DecidableEq

/-- The server's behaviour on one request: a decoded page, a transport
failure (`raise_for_status`/connection → `RequestException`), or a body
that cannot be decoded (`response.json()` → `JSONDecodeError`). -/
inductive FetchR where
  | page (p : TaxPage)
  | transportErr
  | decodeErr
deriving DecidableEq

/-- How the fetch loop ended. -/
inductive LoopEnd where
  | done
  | reqErr
  | decErr
  | fuelE
deriving DecidableEq

/-- The `while next_url:` loop.  Returns the list of URLs requested in
order, the accumulated rows, and how the loop ended.  `fuel` bounds the
number of iterations (the Python loop runs until a page lacks `NextHref`). -/
def getTaxLoop (serve : String → FetchR) (base endp : String) :
    Nat → String → List String × List TaxRow × LoopEnd
  | 0, _ => ([], [], LoopEnd.fuelE)
  | fuel + 1, url =>
    match serve url with
    | FetchR.transportErr => ([url], [], LoopEnd.reqErr)
    | FetchR.decodeErr => ([url], [], LoopEnd.decErr)
    | FetchR.page p =>
      match p.nextHref with
      | none => ([url], p.row.getD [], LoopEnd.done)
      | some h =>
        let r := getTaxLoop serve base endp fuel (base ++ endp ++ h)
        (url :: r.1, p.row.getD [] ++ r.2.1, r.2.2)

/-- `serve` responds to the cursor chain starting at `u` with the page
sequence `ps`: every page but the last carries a `NextHref`, the last one
does not, and each page is the response to the URL derived from the
previous page's cursor. -/
inductive Serves (serve : String → FetchR) (base endp : String) :
    String → List TaxPage → Prop where
  | last (u : String) (p : TaxPage) :
      serve u = FetchR.page p → p.nextHref = none →
      Serves serve base endp u [p]
  | step (u : String) (p : TaxPage) (h : String) (ps : List TaxPage) :
      serve u = FetchR.page p → p.nextHref = some h →
      Serves serve base endp (base ++ endp ++ h) ps →
      Serves serve base endp u (p :: ps)

/-- The URL visited for each page of a cursor chain, in request order. -/
def chainUrls (base endp : String) : String → List TaxPage → List String
  | _, [] => []
  | u, p :: ps =>
      u :: (match p.nextHref with
            | none => []
            | some h => chainUrls base endp (base ++ endp ++ h) ps)

/-- Credentials dictionary: which of the expected keys are present. -/
structure GoCreds where
  user : Option String
  pass : Option String
  conn : Option String

/-- The parameter record passed to `execute_stored_procedure` for one
taxonomy row (`insert_into_database`): every field defaulted to `""`. -/
structure TaxCall where
  idP : String
  titleP : String
  storeP : String
  termP : String
  setP : String
  pathP : String
  caseP : String
deriving DecidableEq

/-- Parameters built from a row by `insert_into_database`. -/
def mkTaxCall (caseType : String) (r : TaxRow) : TaxCall :=
  ⟨r.idF.getD "", r.title.getD "", r.termStore.getD "", r.termF.getD "",
   r.termSet.getD "", r.path.getD "", caseType⟩

/-- `insert_into_database`: one stored-procedure call per row, in order; a
reported failure is printed and the loop continues. Returns the calls made
and the failure messages printed. -/
def insertTaxRun (exec : TaxCall → Bool) (caseType : String) :
    List TaxRow → List TaxCall × List String
  | [] => ([], [])
  | r :: rest =>
    let c := mkTaxCall caseType r
    let t := insertTaxRun exec caseType rest
    (c :: t.1, (if exec c then [] else ["Failed to insert record"]) ++ t.2)

/-- Result of one `get_taxononmy` job. `escaped k` means an exception left
the function (uncaught `KeyError` on credential key `k`); `completed calls
errs` means the function returned normally after making `calls`
stored-procedure calls and printing the error lines `errs`. -/
inductive TaxRunRes where
  | escaped (key : String)
  | completed (calls : List TaxCall) (errs : List String)
  | fuelOut

/-- SharePoint endpoint path for the hidden taxonomy list. -/
def taxEndpoint (caseType : String) : String :=
  "/" ++ caseType ++
    "/_api/web/GetList(\x27%2F" ++ caseType ++
    "%2FLists%2FTaxonomyHiddenList\x27)/RenderListDataAsStream"

/-- Initial page URL with the paging query string. -/
def taxInitialUrl (baseUrl caseType viewId : String) : String :=
  baseUrl ++ taxEndpoint caseType ++ "?Paged=TRUE&p_ID=0&PageFirstRow=31&View=" ++ viewId

/-- `get_taxononmy(credentials, case_type, view_id, base_url)`.

The username and password keys are dereferenced when the NTLM session is
built, *before* the `try` block: if either is missing the `KeyError`
escapes the function.  Inside the `try`, a transport or decode failure
aborts the loop, is printed, and no insert happens; after a successful
loop, `credentials['sql_conn_string']` is dereferenced (a missing key is
caught by the `except KeyError` handler, again with no insert), and then
the rows are inserted one by one. -/
def getTaxonomy (serve : String → FetchR) (exec : TaxCall → Bool)
    (creds : GoCreds) (caseType viewId baseUrl : String) (fuel : Nat) :
    TaxRunRes :=
  match creds.user with
  | none => TaxRunRes.escaped "go_api_username"
  | some _ =>
  match creds.pass with
  | none => TaxRunRes.escaped "go_api_password"
  | some _ =>
    let r := getTaxLoop serve baseUrl (taxEndpoint caseType) fuel
      (taxInitialUrl baseUrl caseType viewId)
    match r.2.2 with
    | LoopEnd.reqErr => TaxRunRes.completed [] ["Request error occurred"]
    | LoopEnd.decErr => TaxRunRes.completed [] ["JSON decode error"]
    | LoopEnd.fuelE => TaxRunRes.fuelOut
    | LoopEnd.done =>
      match creds.conn with
      | none => TaxRunRes.completed [] ["Missing key in credentials: sql_conn_string"]
      | some _ =>
        let t := insertTaxRun exec caseType r.2.1
        TaxRunRes.completed t.1 t.2

/-! ## `term_data_handler.py`: `_get_child_terms`, `_insert_term_data_to_sql`

`_get_child_terms` makes one POST per node (parameterised by the parent
uuid) and, when the response is usable, builds

    result = {"Id": parent_uuid, "Children": []}
    for node in content:
        node_name = node.get("Nm"); node_id = node.get("Id")
        if node_name and node_id:
            child = {"Name": node_name, "Id": node_id, "ParentId": parent_uuid}
            if node.get("Cc", 0) > 0:
                child["Children"] = _get_child_terms(..., node_id, ...)["Children"]
            result["Children"].append(child)
    return result

and returns `None` when `post_data` returned `None` or the response lacks
`d`/`Content`.  Note the recursive call is immediately subscripted with
`["Children"]`: if the recursive call returns `None`, this raises
`TypeError: 'NoneType' object is not subscriptable`.

`_insert_term_data_to_sql` recursively executes one stored procedure per
node (node before its children), formatting each field with an f-string, so
a missing field (Python `None`) becomes the literal string `"None"`. -/

/-- One record of the remote `d.Content` array: `Nm`, `Id`, `Cc` as read by
`.get`. -/
structure GoRec where
  nm : Option String
  id : Option String
  cc : Option Int
deriving DecidableEq

/-- Response of one tree POST: a usable body (`d.Content` present) or
anything else (`post_data` returned `None`, or `d`/`Content` missing). -/
inductive FetchOut where
  | content (rs : List GoRec)
  | nothing

/-- The tree node dictionaries built by `_get_child_terms`: the synthetic
root has no `Name`/`ParentId` key (modelled `none`), children are stored in
append order, and a missing `Children` key is the empty list (the insert
reads it with `.get("Children", [])`). -/
inductive TNode where
  | mk (name : Option String) (id : Option String) (parentId : Option String)
      (children : List TNode)

/-- `Name` field of a node dictionary. -/
def TNode.name : TNode → Option String
  | .mk n _ _ _ => n

/-- `Id` field of a node dictionary. -/
def TNode.id : TNode → Option String
  | .mk _ i _ _ => i

/-- `ParentId` field of a node dictionary. -/
def TNode.parentId : TNode → Option String
  | .mk _ _ p _ => p

/-- `Children` of a node dictionary (defaulted to `[]`). -/
def TNode.children : TNode → List TNode
  | .mk _ _ _ cs => cs

/-- Result of one `_get_child_terms` call: normal return (`some` tree or
`None`), an escaping `TypeError` (`crash`), or out of modelling fuel.  Both
normal and crashing results carry the trace of POST requests made (each
identified by its `parent_uuid` argument), in order. -/
inductive TRes where
  | ok (t : Option TNode) (reqs : List (Option String))
  | crash (reqs : List (Option String))
  | fuel

/-- Result of the `for node in content:` loop over one page's records. -/
inductive BRes where
  | okc (cs : List TNode) (reqs : List (Option String))
  | crashc (reqs : List (Option String))
  | fuelc

/-- Python truthiness of `node.get(...)` for a string value: `None` and the
empty string are falsy. -/
def truthyS : Option String → Bool
  | none => false
  | some s => decide (s ≠ "")

/-- `if node_name and node_id:` — the record yields a child node. -/
def usableRec (r : GoRec) : Bool := truthyS r.nm && truthyS r.id

/-- `node.get("Cc", 0) > 0`. -/
def ccPos (r : GoRec) : Bool := decide (0 < r.cc.getD 0)

/-- The `for node in content:` loop of `_get_child_terms`.  `recurse` is the
recursive tree fetch applied to a child's id.  A recursive call returning
`None` is immediately subscripted (`[...]["Children"]`) and raises
`TypeError`; an exception from deeper in the recursion propagates.  Children
are appended in record order after their subtree is resolved. -/
def buildChildren (recurse : Option String → TRes) (parent : Option String) :
    List GoRec → BRes
  | [] => BRes.okc [] []
  | r :: rest =>
    if usableRec r then
      if ccPos r then
        match recurse r.id with
        | TRes.ok (some sub) subReqs =>
          (match buildChildren recurse parent rest with
           | BRes.okc cs reqs =>
               BRes.okc (TNode.mk r.nm r.id parent sub.children :: cs) (subReqs ++ reqs)
           | BRes.crashc reqs => BRes.crashc (subReqs ++ reqs)
           | BRes.fuelc => BRes.fuelc)
        | TRes.ok none subReqs => BRes.crashc subReqs
        | TRes.crash subReqs => BRes.crashc subReqs
        | TRes.fuel => BRes.fuelc
      else
        match buildChildren recurse parent rest with
        | BRes.okc cs reqs => BRes.okc (TNode.mk r.nm r.id parent [] :: cs) reqs
        | BRes.crashc reqs => BRes.crashc reqs
        | BRes.fuelc => BRes.fuelc
    else
      buildChildren recurse parent rest

/-- `_get_child_terms(api_client, headers, parent_uuid, ...)` with the HTTP
collaborator `fetch` keyed by the `parent_uuid` of the request (the request
body and endpoint are determined by it).  `fuel` bounds recursion depth. -/
def getChildTerms (fetch : Option String → FetchOut) :
    Nat → Option String → TRes
  | 0, _ => TRes.fuel
  | fuel + 1, parent =>
    match fetch parent with
    | FetchOut.nothing => TRes.ok none [parent]
    | FetchOut.content rs =>
      match buildChildren (fun pid => getChildTerms fetch fuel pid) parent rs with
      | BRes.okc cs reqs => TRes.ok (some (TNode.mk none parent none cs)) (parent :: reqs)
      | BRes.crashc reqs => TRes.crash (parent :: reqs)
      | BRes.fuelc => TRes.fuel

/-- Python `f"{x}"` on an optional string: `None` prints as `"None"`. -/
def pyStr : Option String → String
  | none => "None"
  | some s => s

/-- The named parameters passed to `execute_stored_procedure` by
`_insert_term_data_to_sql` — all four are always present and typed `str`
(never NULL, never omitted). -/
structure SqlCall where
  nameP : String
  uuidP : String
  parentP : String
  termSetP : String
deriving DecidableEq

/-- Parameters built for one node: `f"{data.get('Name')}"` etc. -/
def mkTermCall (tsU : String) (t : TNode) : SqlCall :=
  ⟨pyStr t.name, pyStr t.id, pyStr t.parentId, tsU⟩

/-- Observable effects of `_insert_term_data_to_sql`: stored-procedure
calls and printed/logged lines.  (The function's body contains no logging
statement, so only `call` effects are ever emitted.) -/
inductive TEff where
  | call (c : SqlCall)
  | logLine (s : String)
deriving DecidableEq

/-- Is the effect a log line? -/
def TEff.isLog : TEff → Bool
  | .logLine _ => true
  | .call _ => false

mutual

/-- `_insert_term_data_to_sql(data, ...)` for a node dictionary: execute
the stored procedure for the node itself, then recurse into
`data.get("Children", [])`.  The collaborator's result is not inspected. -/
def insertTermEffects (tsU : String) (t : TNode) : List TEff :=
  match t with
  | TNode.mk n i p cs =>
      TEff.call (mkTermCall tsU (TNode.mk n i p cs)) :: insertTermEffectsL tsU cs
termination_by sizeOf t

/-- The recursion over a `Children` list, in order. -/
def insertTermEffectsL (tsU : String) (cs : List TNode) : List TEff :=
  match cs with
  | [] => []
  | c :: rest => insertTermEffects tsU c ++ insertTermEffectsL tsU rest
termination_by sizeOf cs

end

/-- The top-level call `_insert_term_data_to_sql(result, ...)` from
`pull_term_data_from_go_to_sql`: `if data:` skips a `None` result. -/
def insertTermTop (tsU : String) : Option TNode → List TEff
  | none => []
  | some t => insertTermEffects tsU t

mutual

/-- Depth-first pre-order listing of the nodes of a tree. -/
def preorderT (t : TNode) : List TNode :=
  match t with
  | TNode.mk n i p cs => TNode.mk n i p cs :: preorderTL cs
termination_by sizeOf t

/-- Pre-order listing of a forest, left to right. -/
def preorderTL (cs : List TNode) : List TNode :=
  match cs with
  | [] => []
  | c :: rest => preorderT c ++ preorderTL rest
termination_by sizeOf cs

end

/-! ## Lemmas about the retry loop of `add_one` -/

/-- The backoff delays in an event list, in order. -/
def sleepsOf (evs : List QEv) : List ℚ :=
  evs.filterMap fun e =>
    match e with
    | QEv.sleep d => some d
    | _ => none

/-- The attempt numbers in an event list, in order. -/
def attemptsOf (evs : List QEv) : List Nat :=
  evs.filterMap fun e =>
    match e with
    | QEv.attempt n => some n
    | _ => none

theorem loopF_no_sem (base : ℚ) (outcome : Nat → Bool) (maxR : Nat) :
    ∀ fuel j, QEv.acquire ∉ (loopF base outcome maxR fuel j).1 ∧
      QEv.release ∉ (loopF base outcome maxR fuel j).1 := by
  intro fuel
  induction fuel with
  | zero => intro j; simp [loopF]
  | succ fuel ih =>
      intro j
      rw [loopF]
      by_cases h1 : outcome j
      · simp [h1]
      · by_cases h2 : maxR ≤ j
        · simp [h1, h2]
        · simpa [h1, h2] using ih (j + 1)

theorem loopF_attempts_le (base : ℚ) (outcome : Nat → Bool) (maxR : Nat) :
    ∀ fuel j, (attemptsOf (loopF base outcome maxR fuel j).1).length ≤ fuel := by
  intro fuel
  induction fuel with
  | zero => intro j; simp [loopF, attemptsOf]
  | succ fuel ih =>
      intro j
      rw [loopF]
      by_cases h1 : outcome j
      · simp [h1, attemptsOf]
      · by_cases h2 : maxR ≤ j
        · simp [h1, h2, attemptsOf]
        · simp only [h1, h2, if_false, if_neg]
          have := ih (j + 1)
          simp [attemptsOf] at this ⊢
          omega

theorem loopF_sleep_get (base : ℚ) (outcome : Nat → Bool) (maxR k : Nat)
    (hout : ∀ i, 1 ≤ i → i ≤ k → outcome i = false) :
    ∀ fuel j, 1 ≤ j → j + fuel = maxR + 1 →
      ∀ i, j ≤ i → i ≤ k → i < maxR →
        (sleepsOf (loopF base outcome maxR fuel j).1)[i - j]? =
          some (base * 2 ^ (i - 1)) := by
  intro fuel
  induction fuel with
  | zero =>
      intro j _ hj i hji hik himax
      exfalso
      omega
  | succ fuel ih =>
      intro j hj1 hjf i hji hik himax
      have houtj : outcome j = false := hout j hj1 (by omega)
      have hjmax : ¬ maxR ≤ j := by omega
      rw [loopF]
      simp only [houtj, if_false, hjmax, Bool.false_eq_true]
      by_cases hij : i = j
      · subst hij
        simp [sleepsOf]
      · have hlt : j < i := by omega
        have hidx : i - j = (i - (j + 1)) + 1 := by omega
        rw [hidx]
        have := ih (j + 1) (by omega) (by omega) i (by omega) hik himax
        simpa [sleepsOf] using this

theorem loopF_allfail (base : ℚ) (outcome : Nat → Bool) (maxR : Nat)
    (hout : ∀ i, 1 ≤ i → i ≤ maxR → outcome i = false) :
    ∀ fuel j, 1 ≤ j → j + fuel = maxR + 1 → j ≤ maxR →
      (loopF base outcome maxR fuel j).2 = some false ∧
      (attemptsOf (loopF base outcome maxR fuel j).1).length = fuel ∧
      QEv.errorFail maxR ∈ (loopF base outcome maxR fuel j).1 := by
  intro fuel
  induction fuel with
  | zero =>
      intro j _ hjf hjm
      exfalso
      omega
  | succ fuel ih =>
      intro j hj1 hjf hjm
      have houtj : outcome j = false := hout j hj1 hjm
      rw [loopF]
      by_cases h2 : maxR ≤ j
      · have hjeq : j = maxR := by omega
        have hfuel : fuel = 0 := by omega
        subst hjeq
        subst hfuel
        simp [houtj, h2, attemptsOf]
      · have hrec := ih (j + 1) (by omega) (by omega) (by omega)
        simp only [houtj, Bool.false_eq_true, if_false, h2]
        refine ⟨hrec.1, ?_, ?_⟩
        · have := hrec.2.1
          simp [attemptsOf] at this ⊢
          omega
        · simp [hrec.2.2]

theorem loopF_attempt_mem_le (base : ℚ) (outcome : Nat → Bool) (maxR : Nat) :
    ∀ fuel j, j ≤ maxR → ∀ n, QEv.attempt n ∈ (loopF base outcome maxR fuel j).1 →
      n ≤ maxR := by
  intro fuel
  induction fuel with
  | zero => intro j _ n hn; simp [loopF] at hn
  | succ fuel ih =>
      intro j hjm n hn
      rw [loopF] at hn
      by_cases h1 : outcome j
      · simp [h1] at hn
        omega
      · by_cases h2 : maxR ≤ j
        · simp [h1, h2] at hn
          omega
        · simp [h1, h2] at hn
          rcases hn with hn | hn
          · omega
          · exact ih (j + 1) (by omega) n hn

/-! ## Claims C1, C4, C8 -/

/-- Submission-outcome function used for the C1 counterexample: attempt 1
fails, every later attempt succeeds. -/
def c1Outcome : Nat → Bool := fun n => decide (n ≠ 1)

/-- Claim C1 (counterexample): with `MAX_RETRIES = 3`,
`RETRY_BASE_DELAY = 1`, and a first attempt that fails, `add_one` emits
`acquire, attempt 1, warn, sleep 1, attempt 2, success, release` — the only
`release` comes after the backoff sleep, not between the failed attempt and
the sleep, so the task holds its permit while sleeping between retries.
This refutes the claim that the permit is released immediately after each
attempt and before any backoff sleep. -/
theorem c1_counterexample :
    (addOneEvents 3 1 c1Outcome).1 =
      [QEv.acquire, QEv.attempt 1, QEv.warn 1 1, QEv.sleep 1, QEv.attempt 2,
        QEv.okEv, QEv.release] ∧
    QEv.release ∉ [QEv.acquire, QEv.attempt 1, QEv.warn 1 1] := by
  constructor
  · norm_num [addOneEvents, loopF, c1Outcome]
  · decide

/-- Claim C1 (amended): for every work item, `add_one` acquires the permit
once before its first attempt and releases it exactly once, after the item
reaches its terminal result (success or exhausted retries); no release and
no further acquire occurs in between, so all backoff sleeps happen while
the permit is held. -/
theorem c1_amended_thm (maxR : Nat) (base : ℚ) (outcome : Nat → Bool) :
    ∃ body, (addOneEvents maxR base outcome).1 = QEv.acquire :: body ++ [QEv.release] ∧
      QEv.acquire ∉ body ∧ QEv.release ∉ body := by
  refine ⟨(loopF base outcome maxR maxR 1).1, rfl, ?_, ?_⟩
  · exact (loopF_no_sem base outcome maxR maxR 1).1
  · exact (loopF_no_sem base outcome maxR maxR 1).2

/-- Claim C4: for an item whose first `k` submission attempts fail, the
total number of attempts never exceeds `MAX_RETRIES`; the `i`-th backoff
delay (slept before attempt `i+1`, for `i ≤ k`, `i < MAX_RETRIES`) equals
`RETRY_BASE_DELAY * 2^(i-1)`; and once the attempt count reaches
`MAX_RETRIES` the item returns `False` (failed), logs the final error with
the attempt count, and makes no further attempts. -/
theorem c4_backoff_thm (maxR k : Nat) (base : ℚ) (outcome : Nat → Bool)
    (hm : 1 ≤ maxR) (hf : ∀ i, 1 ≤ i → i ≤ k → outcome i = false) :
    (attemptsOf (addOneEvents maxR base outcome).1).length ≤ maxR ∧
    (∀ i, 1 ≤ i → i ≤ k → i < maxR →
      (sleepsOf (addOneEvents maxR base outcome).1)[i - 1]? =
        some (base * 2 ^ (i - 1))) ∧
    (maxR ≤ k →
      (addOneEvents maxR base outcome).2 = some false ∧
      (attemptsOf (addOneEvents maxR base outcome).1).length = maxR ∧
      QEv.errorFail maxR ∈ (addOneEvents maxR base outcome).1 ∧
      ∀ n, QEv.attempt n ∈ (addOneEvents maxR base outcome).1 → n ≤ maxR) := by
  have hsimp1 : attemptsOf (addOneEvents maxR base outcome).1 =
      attemptsOf (loopF base outcome maxR maxR 1).1 := by
    simp [addOneEvents, attemptsOf]
  have hsimp2 : sleepsOf (addOneEvents maxR base outcome).1 =
      sleepsOf (loopF base outcome maxR maxR 1).1 := by
    simp [addOneEvents, sleepsOf]
  refine ⟨?_, ?_, ?_⟩
  · rw [hsimp1]
    exact loopF_attempts_le base outcome maxR maxR 1
  · intro i hi1 hik himax
    rw [hsimp2]
    have := loopF_sleep_get base outcome maxR k hf maxR 1 le_rfl (by omega)
      i hi1 hik himax
    simpa using this
  · intro hmk
    have hout' : ∀ i, 1 ≤ i → i ≤ maxR → outcome i = false := fun i h1 h2 =>
      hf i h1 (by omega)
    have hall := loopF_allfail base outcome maxR hout' maxR 1 le_rfl (by omega) hm
    refine ⟨?_, ?_, ?_, ?_⟩
    · simpa [addOneEvents] using hall.1
    · rw [hsimp1]
      exact hall.2.1
    · simp only [addOneEvents, List.mem_cons, List.mem_append]
      simp [hall.2.2]
    · intro n hn
      simp only [addOneEvents, List.mem_cons, List.mem_append] at hn
      rcases hn with (hn | hn) | hn
      · exact absurd hn (by simp)
      · exact loopF_attempt_mem_le base outcome maxR maxR 1 hm n hn
      · exact absurd hn (by simp)

/-- Witness for C4 at `MAX_RETRIES = 2`, `k = 3`, base delay 1, with a
collaborator that always fails. -/
theorem c4_witness :
    1 ≤ 2 ∧
    ((attemptsOf (addOneEvents 2 1 (fun _ => false)).1).length ≤ 2 ∧
    (∀ i, 1 ≤ i → i ≤ 3 → i < 2 →
      (sleepsOf (addOneEvents 2 1 (fun _ => false)).1)[i - 1]? =
        some (1 * 2 ^ (i - 1))) ∧
    (2 ≤ 3 →
      (addOneEvents 2 1 (fun _ => false)).2 = some false ∧
      (attemptsOf (addOneEvents 2 1 (fun _ => false)).1).length = 2 ∧
      QEv.errorFail 2 ∈ (addOneEvents 2 1 (fun _ => false)).1 ∧
      ∀ n, QEv.attempt n ∈ (addOneEvents 2 1 (fun _ => false)).1 → n ≤ 2)) :=
  ⟨by norm_num, c4_backoff_thm 2 3 1 (fun _ => false) (by norm_num)
    (fun _ _ _ => rfl)⟩

/-- Claim C8 (counterexample): dispatching an empty batch returns after the
"No new items" log with no aggregate summary at all — the summary
`(0, 0, 0)` claimed by the spec is never produced. -/
theorem c8_counterexample :
    (concurrentAdd 3 1 (fun _ _ => true) []).2 = none ∧
    (concurrentAdd 3 1 (fun _ _ => true) []).2 ≠ some (0, 0, 0) := by
  constructor <;> simp [concurrentAdd]

/-- Claim C8 (amended): dispatching an empty item batch performs zero
submission calls and acquires no concurrency permit; it logs "No new items
to add." and returns immediately *without* emitting an aggregate summary. -/
theorem c8_amended_thm (maxR : Nat) (base : ℚ) (outcome : Nat → Nat → Bool) :
    concurrentAdd maxR base outcome [] = ([QEv.noItems], none) ∧
    QEv.acquire ∉ (concurrentAdd maxR base outcome []).1 ∧
    ∀ n, QEv.attempt n ∉ (concurrentAdd maxR base outcome []).1 := by
  refine ⟨rfl, ?_, ?_⟩ <;> simp [concurrentAdd]

/-! ## Claims C3, C7 -/

/-- Claim C3: when the server answers the cursor chain starting at `u` with
the page sequence `ps` (each page but the last carrying a `NextHref`, the
last one lacking it), the fetch loop issues exactly one request per cursor,
in cursor order (`chainUrls`, one URL per page), stops after the first page
without a `NextHref`, and returns the concatenation of all pages' rows in
page order.  The page sequence `ps` is arbitrary — in particular a page may
carry zero rows or fewer rows than the page size, and termination and the
request list depend only on the `NextHref` fields, never on row counts. -/
theorem c3_pagination_thm (serve : String → FetchR) (base endp u : String)
    (ps : List TaxPage) (fuel : Nat)
    (hserves : Serves serve base endp u ps) (hfuel : ps.length ≤ fuel) :
    getTaxLoop serve base endp fuel u =
      (chainUrls base endp u ps, (ps.map fun p => p.row.getD []).flatten,
        LoopEnd.done) ∧
    (chainUrls base endp u ps).length = ps.length := by
  induction hserves generalizing fuel with
  | last u1 p hserve hnone =>
      cases fuel with
      | zero => simp at hfuel
      | succ fuel =>
          constructor
          · rw [getTaxLoop]
            simp [hserve, hnone, chainUrls]
          · simp [chainUrls, hnone]
  | step u1 p h ps2 hserve hsome _ ih =>
      cases fuel with
      | zero => simp at hfuel
      | succ fuel =>
          have hlen : ps2.length ≤ fuel := by
            simp only [List.length_cons] at hfuel
            omega
          have hrec := ih fuel hlen
          constructor
          · rw [getTaxLoop]
            simp [hserve, hsome, chainUrls, hrec.1]
          · simp [chainUrls, hsome, hrec.2]

/-- Row fixture for the C3 witness. -/
def c3Row : TaxRow := ⟨some "1", none, none, none, none, none⟩

/-- First page of the C3 witness chain: one row, a `NextHref`. -/
def c3Page1 : TaxPage := ⟨some [c3Row], some "h1"⟩

/-- Last page of the C3 witness chain: no `Row` key, no `NextHref`. -/
def c3Page2 : TaxPage := ⟨none, none⟩

/-- Server of the C3 witness: it answers the two-URL chain and fails on
anything else. -/
def c3Serve : String → FetchR := fun u =>
  if u = "u0" then FetchR.page c3Page1
  else if u = "Beh1" then FetchR.page c3Page2
  else FetchR.transportErr

/-- Witness for C3 on a concrete two-page chain. -/
theorem c3_witness :
    getTaxLoop c3Serve "B" "e" 2 "u0" =
      (chainUrls "B" "e" "u0" [c3Page1, c3Page2],
        ([c3Page1, c3Page2].map fun p => p.row.getD []).flatten, LoopEnd.done) ∧
    (chainUrls "B" "e" "u0" [c3Page1, c3Page2]).length = [c3Page1, c3Page2].length :=
  c3_pagination_thm c3Serve "B" "e" "u0" [c3Page1, c3Page2] 2
    (Serves.step "u0" c3Page1 "h1" [c3Page2] (by decide) rfl
      (Serves.last "Beh1" c3Page2 (by decide) rfl))
    (by norm_num)

/-- Server used in the C7 counterexample (never reached: the `KeyError`
fires before any request). -/
def c7Serve : String → FetchR := fun _ => FetchR.transportErr

/-- Stored-procedure collaborator for C7 examples. -/
def c7Exec : TaxCall → Bool := fun _ => true

/-- Claim C7 (counterexample): with the `go_api_username` credential key
missing, `get_taxononmy` raises `KeyError` while building the NTLM session
— *before* its `try` block — so the exception escapes the function instead
of being logged and swallowed.  The run does not complete normally. -/
theorem c7_counterexample :
    getTaxonomy c7Serve c7Exec ⟨none, some "pw", some "conn"⟩ "ct" "v" "B" 1 =
      TaxRunRes.escaped "go_api_username" ∧
    ∀ cs es, getTaxonomy c7Serve c7Exec ⟨none, some "pw", some "conn"⟩ "ct" "v" "B" 1 ≠
      TaxRunRes.completed cs es := by
  constructor
  · rfl
  · intro cs es h
    exact TaxRunRes.noConfusion h

/-- Claim C7 (amended): once the API username and password keys are
present, every fetch-level failure aborts the whole job's fetch with the
error printed and **zero** stored-procedure calls (the database is
untouched), and the function returns normally (nothing escapes, the job is
not retried): a transport error on any page, a body that cannot be
decoded, and a missing `sql_conn_string` credential key (the one
credential access inside the `try` block) are all handled this way.  A
missing username/password key, by contrast, escapes (see the
counterexample). -/
theorem c7_amended_thm (serve : String → FetchR) (exec : TaxCall → Bool)
    (creds : GoCreds) (ct v b : String) (fuel : Nat) (u p : String)
    (hu : creds.user = some u) (hp : creds.pass = some p) :
    ((getTaxLoop serve b (taxEndpoint ct) fuel (taxInitialUrl b ct v)).2.2 =
        LoopEnd.reqErr →
      getTaxonomy serve exec creds ct v b fuel =
        TaxRunRes.completed [] ["Request error occurred"]) ∧
    ((getTaxLoop serve b (taxEndpoint ct) fuel (taxInitialUrl b ct v)).2.2 =
        LoopEnd.decErr →
      getTaxonomy serve exec creds ct v b fuel =
        TaxRunRes.completed [] ["JSON decode error"]) ∧
    ((getTaxLoop serve b (taxEndpoint ct) fuel (taxInitialUrl b ct v)).2.2 =
        LoopEnd.done → creds.conn = none →
      getTaxonomy serve exec creds ct v b fuel =
        TaxRunRes.completed [] ["Missing key in credentials: sql_conn_string"]) := by
  obtain ⟨cu, cp, cc⟩ := creds
  simp only at hu hp
  subst hu
  subst hp
  refine ⟨?_, ?_, ?_⟩
  · intro h
    simp [getTaxonomy, h]
  · intro h
    simp [getTaxonomy, h]
  · intro h hc
    simp only at hc
    subst hc
    simp [getTaxonomy, h]

/-- Witness for C7 on a concrete transport-failing server. -/
theorem c7_witness :
    ((getTaxLoop c7Serve "B" (taxEndpoint "ct") 1 (taxInitialUrl "B" "ct" "v")).2.2 =
        LoopEnd.reqErr →
      getTaxonomy c7Serve c7Exec ⟨some "u", some "p", some "c"⟩ "ct" "v" "B" 1 =
        TaxRunRes.completed [] ["Request error occurred"]) ∧
    ((getTaxLoop c7Serve "B" (taxEndpoint "ct") 1 (taxInitialUrl "B" "ct" "v")).2.2 =
        LoopEnd.decErr →
      getTaxonomy c7Serve c7Exec ⟨some "u", some "p", some "c"⟩ "ct" "v" "B" 1 =
        TaxRunRes.completed [] ["JSON decode error"]) ∧
    ((getTaxLoop c7Serve "B" (taxEndpoint "ct") 1 (taxInitialUrl "B" "ct" "v")).2.2 =
        LoopEnd.done → GoCreds.conn ⟨some "u", some "p", some "c"⟩ = none →
      getTaxonomy c7Serve c7Exec ⟨some "u", some "p", some "c"⟩ "ct" "v" "B" 1 =
        TaxRunRes.completed [] ["Missing key in credentials: sql_conn_string"]) :=
  c7_amended_thm c7Serve c7Exec ⟨some "u", some "p", some "c"⟩ "ct" "v" "B" 1
    "u" "p" rfl rfl

/-! ## Claims C2, C5 -/

/-- Children attached from a recursion result; the crash/fuel branches are
never reached when the overall call returned normally. -/
def childrenOfRes : TRes → List TNode
  | TRes.ok (some t) _ => t.children
  | _ => []

/-- Request trace of a recursion result. -/
def reqsOfRes : TRes → List (Option String)
  | TRes.ok _ rs => rs
  | TRes.crash rs => rs
  | TRes.fuel => []

theorem buildChildren_okc (recurse : Option String → TRes) (parent : Option String) :
    ∀ (rs : List GoRec) (cs : List TNode) (reqs : List (Option String)),
      buildChildren recurse parent rs = BRes.okc cs reqs →
      cs = (rs.filter usableRec).map (fun r =>
        TNode.mk r.nm r.id parent
          (if ccPos r then childrenOfRes (recurse r.id) else [])) ∧
      reqs = ((rs.filter fun r => usableRec r && ccPos r).map
        (fun r => reqsOfRes (recurse r.id))).flatten := by
  intro rs
  induction rs with
  | nil =>
      intro cs reqs h
      rw [buildChildren] at h
      cases h
      simp
  | cons r rest ih =>
      intro cs reqs h
      rw [buildChildren] at h
      by_cases hu : usableRec r = true
      · rw [if_pos hu] at h
        by_cases hc : ccPos r = true
        · rw [if_pos hc] at h
          cases hrec : recurse r.id with
          | ok t subReqs =>
              cases t with
              | some sub =>
                  rw [hrec] at h
                  cases hbc : buildChildren recurse parent rest with
                  | okc cs2 reqs2 =>
                      rw [hbc] at h
                      cases h
                      have hrest := ih _ _ hbc
                      constructor
                      · simp [List.filter_cons, hu, hc, hrec, childrenOfRes, hrest.1]
                      · simp [List.filter_cons, hu, hc, hrec, reqsOfRes, hrest.2]
                  | crashc reqs2 =>
                      rw [hbc] at h
                      cases h
                  | fuelc =>
                      rw [hbc] at h
                      cases h
              | none =>
                  rw [hrec] at h
                  cases h
          | crash subReqs =>
              rw [hrec] at h
              cases h
          | fuel =>
              rw [hrec] at h
              cases h
        · rw [if_neg hc] at h
          cases hbc : buildChildren recurse parent rest with
          | okc cs2 reqs2 =>
              rw [hbc] at h
              cases h
              have hrest := ih _ _ hbc
              have hcf : ccPos r = false := by simpa using hc
              constructor
              · simp [List.filter_cons, hu, hcf, hrest.1]
              · simp [List.filter_cons, hu, hcf, hrest.2]
          | crashc reqs2 =>
              rw [hbc] at h
              cases h
          | fuelc =>
              rw [hbc] at h
              cases h
      · rw [if_neg hu] at h
        have hrest := ih cs reqs h
        have hfu : usableRec r = false := by simpa using hu
        constructor
        · simp [List.filter_cons, hfu, hrest.1]
        · simp [List.filter_cons, hfu, hrest.2]

/-- Claim C5: on a successful page response for a node, `_get_child_terms`
builds exactly one child node `{Name, Id, ParentId}` per returned record
that carries a (truthy) name and id — records missing either are skipped —
appends the children in the order the API returned them, and for each
child with a positive declared child count attaches the recursively
resolved subtree; the request trace is the parent's request followed by
each such child's subtree requests, in sibling order (strict depth-first
resolution before moving to the next sibling). -/
theorem c5_children_thm (fetch : Option String → FetchOut) (fuel : Nat)
    (parent : Option String) (rs : List GoRec) (t : Option TNode)
    (reqs : List (Option String))
    (hfetch : fetch parent = FetchOut.content rs)
    (hok : getChildTerms fetch (fuel + 1) parent = TRes.ok t reqs) :
    t = some (TNode.mk none parent none
      ((rs.filter usableRec).map fun r =>
        TNode.mk r.nm r.id parent
          (if ccPos r then childrenOfRes (getChildTerms fetch fuel r.id) else []))) ∧
    reqs = parent ::
      ((rs.filter fun r => usableRec r && ccPos r).map
        (fun r => reqsOfRes (getChildTerms fetch fuel r.id))).flatten := by
  simp only [getChildTerms, hfetch] at hok
  cases hbc : buildChildren (fun pid => getChildTerms fetch fuel pid) parent rs with
  | okc cs reqs2 =>
      rw [hbc] at hok
      cases hok
      obtain ⟨h1, h2⟩ := buildChildren_okc _ parent rs cs reqs2 hbc
      exact ⟨by rw [h1], by rw [h2]⟩
  | crashc reqs2 =>
      rw [hbc] at hok
      cases hok
  | fuelc =>
      rw [hbc] at hok
      cases hok

/-- Fetch fixture for the C5 witness: the root page returns a leaf record,
a record with one declared child, and a record missing its name; the child
page is empty. -/
def c5Fetch : Option String → FetchOut := fun p =>
  if p = some "P" then
    FetchOut.content [⟨some "A", some "a", none⟩, ⟨some "B", some "b", some 1⟩,
      ⟨none, some "skip", none⟩]
  else if p = some "b" then FetchOut.content []
  else FetchOut.nothing

/-- Witness for C5 on the concrete fixture. -/
theorem c5_witness :
    some (TNode.mk none (some "P") none
        [TNode.mk (some "A") (some "a") (some "P") [],
         TNode.mk (some "B") (some "b") (some "P") []]) =
      some (TNode.mk none (some "P") none
        (([⟨some "A", some "a", none⟩, ⟨some "B", some "b", some 1⟩,
            ⟨none, some "skip", none⟩].filter usableRec).map fun r =>
          TNode.mk r.nm r.id (some "P")
            (if ccPos r then childrenOfRes (getChildTerms c5Fetch 1 r.id) else []))) ∧
    [some "P", some "b"] = some "P" ::
      (([⟨some "A", some "a", none⟩, ⟨some "B", some "b", some 1⟩,
          ⟨none, some "skip", none⟩].filter fun r => usableRec r && ccPos r).map
        (fun r => reqsOfRes (getChildTerms c5Fetch 1 r.id))).flatten :=
  c5_children_thm c5Fetch 1 (some "P")
    [⟨some "A", some "a", none⟩, ⟨some "B", some "b", some 1⟩,
      ⟨none, some "skip", none⟩]
    (some (TNode.mk none (some "P") none
      [TNode.mk (some "A") (some "a") (some "P") [],
       TNode.mk (some "B") (some "b") (some "P") []]))
    [some "P", some "b"] rfl rfl

/-- Fetch fixture for the C2 counterexample: the root page succeeds and
declares one child with a positive child count; the fetch for that child
fails (returns no usable content). -/
def c2Fetch : Option String → FetchOut := fun p =>
  if p = some "root" then FetchOut.content [⟨some "A", some "cid", some 1⟩]
  else FetchOut.nothing

/-- Claim C2 (counterexample): when the fetch for a nested child with a
positive declared child count fails, `_get_child_terms` does not yield an
empty/absent result — the recursive caller subscripts the recursive call's
`None` result (`...["Children"]`) and raises `TypeError`, so the call
crashes instead of treating the absent subtree as a non-fatal gap. -/
theorem c2_counterexample :
    getChildTerms c2Fetch 2 (some "root") = TRes.crash [some "root", some "cid"] ∧
    ∀ t reqs, getChildTerms c2Fetch 2 (some "root") ≠ TRes.ok t reqs := by
  constructor
  · rfl
  · intro t reqs h
    rw [show getChildTerms c2Fetch 2 (some "root") =
      TRes.crash [some "root", some "cid"] from rfl] at h
    exact TRes.noConfusion h

/-- Claim C2 (amended): if the fetch for the node a `_get_child_terms` call
was invoked on fails or returns no usable content, that call returns an
absent result (`None`) and the top-level caller treats it as a terminal
non-fatal gap (`_insert_term_data_to_sql` performs no work on `None`).  But
if the failing fetch is the recursive one for a child with a positive
declared child count, the recursive caller crashes with a `TypeError`
instead of recording an absent subtree. -/
theorem c2_amended_thm :
    (∀ (fetch : Option String → FetchOut) (fuel : Nat) (parent : Option String)
        (tsU : String),
      fetch parent = FetchOut.nothing →
      getChildTerms fetch (fuel + 1) parent = TRes.ok none [parent] ∧
      insertTermTop tsU none = []) ∧
    (∀ (fetch : Option String → FetchOut) (f : Nat) (parent : Option String)
        (r : GoRec),
      fetch parent = FetchOut.content [r] → usableRec r = true → ccPos r = true →
      fetch r.id = FetchOut.nothing →
      getChildTerms fetch (f + 2) parent = TRes.crash [parent, r.id]) := by
  constructor
  · intro fetch fuel parent tsU h
    exact ⟨by simp [getChildTerms, h], rfl⟩
  · intro fetch f parent r h1 hu hc h2
    simp [getChildTerms, h1, buildChildren, hu, hc, h2]

/-- Witness for C2: a missing root page yields `None` (handled by the
caller without any insert), and the concrete nested-failure fixture
crashes. -/
theorem c2_witness :
    (getChildTerms c2Fetch 1 (some "other") = TRes.ok none [some "other"] ∧
      insertTermTop "ts" none = []) ∧
    getChildTerms c2Fetch 2 (some "root") = TRes.crash [some "root", some "cid"] :=
  ⟨c2_amended_thm.1 c2Fetch 0 (some "other") "ts" rfl,
   c2_amended_thm.2 c2Fetch 0 (some "root") ⟨some "A", some "cid", some 1⟩
     rfl rfl rfl rfl⟩

/-! ## Claims C6, C10 -/

mutual

theorem insertTermEffects_preorder (tsU : String) (t : TNode) :
    insertTermEffects tsU t =
      (preorderT t).map fun n => TEff.call (mkTermCall tsU n) := by
  match t with
  | TNode.mk n i p cs =>
      rw [insertTermEffects, preorderT]
      simp only [List.map_cons]
      rw [insertTermEffectsL_preorder tsU cs]
termination_by sizeOf t

theorem insertTermEffectsL_preorder (tsU : String) (cs : List TNode) :
    insertTermEffectsL tsU cs =
      (preorderTL cs).map fun n => TEff.call (mkTermCall tsU n) := by
  match cs with
  | [] => rw [insertTermEffectsL, preorderTL]; rfl
  | c :: rest =>
      rw [insertTermEffectsL, preorderTL]
      simp only [List.map_append]
      rw [insertTermEffects_preorder tsU c, insertTermEffectsL_preorder tsU rest]
termination_by sizeOf cs

end

/-- Three-node tree fixture for the C6 counterexample. -/
def c6Tree : TNode :=
  TNode.mk none (some "root") none
    [TNode.mk (some "A") (some "a") (some "root") [],
     TNode.mk (some "B") (some "b") (some "root") []]

/-- Claim C6 (counterexample): on a three-node tree, `_insert_term_data_to_sql`
invokes the upsert for all three nodes but emits no log line whatsoever —
the stored procedure's reported result is never inspected, so a reported
failure is *not* logged (though traversal does continue). -/
theorem c6_counterexample :
    (insertTermEffects "ts" c6Tree).filter TEff.isLog = [] ∧
    (insertTermEffects "ts" c6Tree).length = 3 := by
  constructor <;>
    simp [insertTermEffects, insertTermEffectsL, c6Tree, TEff.isLog]

/-- Claim C6 (amended): the tree-flatten inserter visits every node
depth-first pre-order (node before its children) and invokes the upsert
collaborator exactly once per node; the collaborator's reported result is
ignored — no failure is logged — and traversal always continues through all
siblings and remaining subtrees regardless of reported failures (the
emitted call sequence does not depend on the collaborator at all). -/
theorem c6_amended_thm (tsU : String) (t : TNode) :
    insertTermEffects tsU t =
      (preorderT t).map (fun n => TEff.call (mkTermCall tsU n)) ∧
    (insertTermEffects tsU t).filter TEff.isLog = [] := by
  refine ⟨insertTermEffects_preorder tsU t, ?_⟩
  rw [insertTermEffects_preorder tsU t]
  induction preorderT t with
  | nil => rfl
  | cons x rest ih => simp [TEff.isLog, ih]

/-- Claim C10: for every tree returned by `_get_child_terms`, the insert
step upserts the synthetic root record itself first (before the children,
which follow in pre-order), and since the root dictionary carries no
`Name`/`ParentId` key, the corresponding stored-procedure parameters are
the literal string `"None"` (the f-string rendering of the absent value) —
not NULL and not an omitted parameter: every call carries all four `str`
parameters.  More generally any node with a missing field contributes the
string `"None"` for that parameter. -/
theorem c10_root_insert_thm (fetch : Option String → FetchOut) (fuel : Nat)
    (start : String) (tsU : String) (t : TNode) (reqs : List (Option String))
    (h : getChildTerms fetch (fuel + 1) (some start) = TRes.ok (some t) reqs) :
    insertTermTop tsU (some t) =
      TEff.call ⟨"None", start, "None", tsU⟩ :: insertTermEffectsL tsU t.children ∧
    (∀ n : TNode, n.name = none → (mkTermCall tsU n).nameP = "None") ∧
    (∀ n : TNode, n.parentId = none → (mkTermCall tsU n).parentP = "None") := by
  have hshape : t.name = none ∧ t.id = some start ∧ t.parentId = none := by
    simp only [getChildTerms] at h
    cases hf : fetch (some start) with
    | nothing =>
        simp only [hf] at h
        injection h with h1 h2
        exact Option.noConfusion h1
    | content rs =>
        simp only [hf] at h
        cases hbc : buildChildren (fun pid => getChildTerms fetch fuel pid)
            (some start) rs with
        | okc cs reqs2 =>
            simp only [hbc] at h
            injection h with h1 h2
            injection h1 with h1
            rw [← h1]
            exact ⟨rfl, rfl, rfl⟩
        | crashc reqs2 =>
            simp only [hbc] at h
            exact TRes.noConfusion h
        | fuelc =>
            simp only [hbc] at h
            exact TRes.noConfusion h
  obtain ⟨hn, hi, hp⟩ := hshape
  refine ⟨?_, ?_, ?_⟩
  · cases t with
    | mk n i p cs =>
        simp only [TNode.name] at hn
        simp only [TNode.id] at hi
        simp only [TNode.parentId] at hp
        subst hn
        subst hi
        subst hp
        rw [insertTermTop]
        rw [insertTermEffects]
        simp [mkTermCall, pyStr, TNode.name, TNode.id, TNode.parentId, TNode.children]
  · intro n hn2
    cases n
    simp only [TNode.name] at hn2
    subst hn2
    simp [mkTermCall, pyStr, TNode.name]
  · intro n hp2
    cases n
    simp only [TNode.parentId] at hp2
    subst hp2
    simp [mkTermCall, pyStr, TNode.parentId]

/-- Fetch fixture for the C10 witness: the root page returns no records. -/
def c10Fetch : Option String → FetchOut := fun p =>
  if p = some "S" then FetchOut.content [] else FetchOut.nothing

/-- Witness for C10 on a one-node tree. -/
theorem c10_witness :
    insertTermTop "ts" (some (TNode.mk none (some "S") none [])) =
      TEff.call ⟨"None", "S", "None", "ts"⟩ ::
        insertTermEffectsL "ts" (TNode.mk none (some "S") none []).children ∧
    (∀ n : TNode, n.name = none → (mkTermCall "ts" n).nameP = "None") ∧
    (∀ n : TNode, n.parentId = none → (mkTermCall "ts" n).parentP = "None") :=
  c10_root_insert_thm c10Fetch 0 "S" "ts" (TNode.mk none (some "S") none [])
    [some "S"] rfl

/-! ## Claim C9 -/

/-- Claim C9: payloads equal as structured data (the same key→value
mappings, however the keys were inserted) have byte-identical canonical
serializations under `create_sort_key`; consequently, sorting any two
batches that are rearrangements of each other produces the same sequence of
sort keys — the submission order is deterministic and independent of the
catalog's iteration order. -/
theorem c9_canonical_thm :
    (∀ p q : JVal, sameData p q = true → createSortKey p = createSortKey q) ∧
    (∀ l l' : List JVal, l.Perm l' →
      (sortItemsBy l).map createSortKey = (sortItemsBy l').map createSortKey) := by
  constructor
  · intro p q h
    exact sameData_jdump h
  · intro l l' hperm
    have hs1 : ((sortItemsBy l).map createSortKey).Pairwise (· ≤ ·) :=
      List.Pairwise.map createSortKey (fun _ _ hab => hab)
        (List.sorted_insertionSort itemLe l)
    have hs2 : ((sortItemsBy l').map createSortKey).Pairwise (· ≤ ·) :=
      List.Pairwise.map createSortKey (fun _ _ hab => hab)
        (List.sorted_insertionSort itemLe l')
    have hp : ((sortItemsBy l).map createSortKey).Perm
        ((sortItemsBy l').map createSortKey) :=
      ((List.perm_insertionSort itemLe l).map createSortKey).trans
        ((hperm.map createSortKey).trans
          ((List.perm_insertionSort itemLe l').map createSortKey).symm)
    exact List.eq_of_perm_of_sorted hp hs1 hs2

/-- One payload of the C9 witness: keys inserted in the order `b`, `a`. -/
def c9P : JVal := JVal.obj [("b", JVal.num 1), ("a", JVal.str "x")]

/-- The same mapping with keys inserted in the order `a`, `b`. -/
def c9Q : JVal := JVal.obj [("a", JVal.str "x"), ("b", JVal.num 1)]

/-- Witness for C9 on two concrete insertion orders of the same mapping. -/
theorem c9_witness :
    createSortKey c9P = createSortKey c9Q ∧
    (sortItemsBy [c9P, c9Q]).map createSortKey =
      (sortItemsBy [c9Q, c9P]).map createSortKey :=
  ⟨c9_canonical_thm.1 c9P c9Q
      (by simp [c9P, c9Q, sameData, subObj, sameList, lookupJ]),
   c9_canonical_thm.2 [c9P, c9Q] [c9Q, c9P] (List.Perm.swap c9Q c9P [])⟩

end GoAts
